import Mathlib

/-
  Verification of the override proxy (main.go): request rewriting, the SSE
  scanner, and the code-completion stream translator, shallowly embedded
  over lists of characters.
-/

namespace Override

/-! Generic string operations, modelling the Go strings package functions
    used by main.go.  Strings are modelled as lists of characters. -/

/-- Go strings.HasPrefix. -/
def isPre : List Char → List Char → Bool
  | [], _ => true
  | _ :: _, [] => false
  | a :: p, b :: s => if a = b then isPre p s else false

/-- Go strings.Contains: does p occur as a contiguous substring of s. -/
def containsSub (p : List Char) : List Char → Bool
  | [] => isPre p []
  | b :: s => isPre p (b :: s) || containsSub p s

/-- Go strings.TrimPrefix. -/
def trimPre (p s : List Char) : List Char :=
  if isPre p s then List.drop p.length s else s

/-- Go strings.HasSuffix. -/
def isSuf (p s : List Char) : Bool := isPre p.reverse s.reverse

/-- Go strings.TrimSuffix. -/
def trimSuffix (p s : List Char) : List Char :=
  if isSuf p s then List.take (s.length - p.length) s else s

/-- Go strings.ReplaceAll for a non-empty pattern: replaces the
    non-overlapping leftmost occurrences of p by r. -/
def replaceAll (p r : List Char) : List Char → List Char
  | [] => []
  | a :: s =>
    if p ≠ [] ∧ isPre p (a :: s) = true then
      r ++ replaceAll p r (List.drop p.length (a :: s))
    else
      a :: replaceAll p r s
termination_by s => s.length
decreasing_by
  · simp only [List.length_drop, List.length_cons]
    have hp : 0 < p.length := List.length_pos.mpr (by tauto)
    omega
  · simp

/-! The SSE frame reader of codeCompletions: a bufio.Scanner over the
    upstream body with a custom split function that cuts at each newline
    byte and, at end of input, emits the non-empty remainder.  The goroutine
    then drops lines shorter than the data tag and strips that tag. -/

/-- Prepend a character to the first complete line of a
    (complete lines, remainder) pair, or to the remainder when no complete
    line was found yet. -/
def consLine (c : Char) : List (List Char) × List Char → List (List Char) × List Char
  | ([], r) => ([], c :: r)
  | (l :: ls, r) => ((c :: l) :: ls, r)

/-- Split the buffered bytes at each newline: returns the complete
    (newline-terminated) lines, without their newline, and the remainder
    after the last newline.  This is what repeated calls of the custom
    split function extract from a buffer before end of input. -/
def extractLines : List Char → List (List Char) × List Char
  | [] => ([], [])
  | c :: rest =>
    if c = '\n' then ([] :: (extractLines rest).1, (extractLines rest).2)
    else consLine c (extractLines rest)

/-- The token sequence produced by the scanner when the upstream bytes
    arrive as the given list of reads, carrying a buffer of not yet
    consumed bytes: each read appends to the buffer and all complete lines
    are consumed; at end of input the split function hands out the
    remaining bytes as a final token when non-empty. -/
def scanChunks : List (List Char) → List Char → List (List Char)
  | [], buf =>
    (extractLines buf).1 ++ (if (extractLines buf).2 = [] then [] else [(extractLines buf).2])
  | chunk :: rest, buf =>
    (extractLines (buf ++ chunk)).1 ++ scanChunks rest (extractLines (buf ++ chunk)).2

/-- The token sequence for the whole upstream byte stream delivered at once. -/
def scanAll (s : List Char) : List (List Char) := scanChunks [] s

/-- The reader goroutine: lines shorter than the data tag are dropped,
    the data tag is stripped from the rest (main.go lines 446 to 453). -/
def lineToFrame (l : List Char) : Option (List Char) :=
  if l.length < "data: ".data.length then none
  else some (trimPre "data: ".data l)

/-- The payload sequence the reader goroutine sends over the channel for a
    byte stream delivered whole. -/
def readerFrames (s : List Char) : List (List Char) :=
  (scanAll s).filterMap lineToFrame

/-- The payload sequence the reader goroutine sends when the byte stream is
    partitioned into the given reads. -/
def readerFramesChunked (chunks : List (List Char)) : List (List Char) :=
  (scanChunks chunks []).filterMap lineToFrame

/-- The payloads as the stream translator consumes them, after its trim of
    one trailing carriage return (main.go line 463). -/
def deliveredPayloads (s : List Char) : List (List Char) :=
  (readerFrames s).map (trimSuffix ['\r'])

/-- Chunked-read variant of deliveredPayloads. -/
def deliveredPayloadsChunked (chunks : List (List Char)) : List (List Char) :=
  (readerFramesChunked chunks).map (trimSuffix ['\r'])

/-! The chat path body rewriter: the pure body transformation performed by
    the completions handler (main.go lines 293 to 319) before forwarding.
    The body is modelled by the fields the handler reads or writes; gjson
    yields the empty string for a missing model, the empty array for
    missing messages, and 0 for a missing max_tokens. -/

/-- The configuration fields the chat rewrite reads. -/
structure ChatCfg where
  chatModelMap : List (List Char × List Char)
  chatModelDefault : List Char
  chatLocale : List Char
  chatMaxTokens : Int
deriving DecidableEq

/-- The request body fields the chat rewrite reads or writes.  The intent
    fields only matter by presence, message entries by their content. -/
structure ChatBody where
  model : Option (List Char)
  functionCallPresent : Bool
  messages : List (List Char)
  maxTokens : Option Int
  intentPresent : Bool
  intentThresholdPresent : Bool
  intentContentPresent : Bool
deriving DecidableEq

/-- Go map lookup in cfg.ChatModelMap, as first match in an association
    list. -/
def lookupModel (k : List Char) : List (List Char × List Char) → Option (List Char)
  | [] => none
  | (key, v) :: rest => if k = key then some v else lookupModel k rest

/-- The locale used by the augmentation: cfg.ChatLocale, or zh_CN when
    unset (main.go lines 305 to 308). -/
def localeOf (cfg : ChatCfg) : List Char :=
  if cfg.chatLocale = [] then "zh_CN".data else cfg.chatLocale

/-- The marker substring guarding the augmentation (main.go line 304). -/
def localeMarker : List Char := "Respond in the following locale".data

/-- The locale suffix augmentation applied to the last message content
    (main.go lines 304 to 309): a no-op when the marker already occurs,
    otherwise the locale instruction is appended directly to the content. -/
def augmentContent (loc : List Char) (content : List Char) : List Char :=
  if containsSub localeMarker content then content
  else content ++ "Respond in the following locale: ".data ++ loc ++ ".".data

/-- Replace the last element of a list; none when the list is empty, in
    which case the Go code indexes the array at -1 and panics. -/
def updateLast (f : List Char → List Char) : List (List Char) → Option (List (List Char))
  | [] => none
  | [a] => some [f a]
  | a :: b :: rest => (updateLast f (b :: rest)).map (a :: ·)

/-- Model override (main.go lines 293 to 299): the model field is always
    overwritten, by the mapped name when found, else by the default. -/
def rewriteModel (cfg : ChatCfg) (b : ChatBody) : ChatBody :=
  { b with
    model := some (match lookupModel (b.model.getD []) cfg.chatModelMap with
      | some v => v
      | none => cfg.chatModelDefault) }

/-- Locale augmentation step (main.go lines 301 to 311): skipped when
    function_call is present; otherwise the last message content is
    augmented; with no messages the code indexes at -1 (none = panic). -/
def rewriteLocale (cfg : ChatCfg) (b : ChatBody) : Option ChatBody :=
  if b.functionCallPresent then some b
  else
    match updateLast (augmentContent (localeOf cfg)) b.messages with
    | none => none
    | some ms => some { b with messages := ms }

/-- Deletion of the intent fields (main.go lines 313 to 315). -/
def stripIntents (b : ChatBody) : ChatBody :=
  { b with intentPresent := false, intentThresholdPresent := false,
           intentContentPresent := false }

/-- The max_tokens cap (main.go lines 317 to 319): a missing field reads
    as 0; a value above the cap is overwritten by the cap. -/
def clampBody (cfg : ChatCfg) (b : ChatBody) : ChatBody :=
  if b.maxTokens.getD 0 > cfg.chatMaxTokens then
    { b with maxTokens := some cfg.chatMaxTokens }
  else b

/-- The whole chat body rewrite, in source order; none models the panic of
    the locale step on an empty message array. -/
def rewriteChat (cfg : ChatCfg) (b : ChatBody) : Option ChatBody :=
  match rewriteLocale cfg (rewriteModel cfg b) with
  | none => none
  | some b2 => some (clampBody cfg (stripIntents b2))

/-! The code path body constructor (main.go lines 516 to 572): dispatch on
    the configured code-instruct model, fill-in-middle prompt construction,
    and the post-serialization restoration of angle brackets. -/

/-- The stable-code marker (main.go line 27). -/
def stableCodeMarker : List Char := "stable-code".data

/-- A synthetic chat message of the constructed body. -/
structure CodeMsg where
  role : List Char
  content : List Char
deriving DecidableEq

/-- The fill-in-middle content built by constructWithStableCodeModel
    (main.go line 550). -/
def fimContent (prompt suffix : List Char) : List Char :=
  "<fim_prefix>".data ++ prompt ++ "<fim_suffix>".data ++ suffix ++ "<fim_middle>".data

/-- The single user message constructWithStableCodeModel installs as the
    whole messages field (main.go lines 553 to 558). -/
def stableCodeMessages (prompt suffix : List Char) : List CodeMsg :=
  [{ role := "user".data, content := fimContent prompt suffix }]

/-- The fill-in-middle content built by constructWithCfCodeModel
    (main.go line 535). -/
def cfFimContent (prompt suffix : List Char) : List Char :=
  "<｜fim▁begin｜>".data ++ prompt ++ "<｜fim▁hole｜>".data ++ suffix ++ "<｜fim▁end｜>".data

/-- The single user message constructWithCfCodeModel installs. -/
def cfCodeMessages (prompt suffix : List Char) : List CodeMsg :=
  [{ role := "user".data, content := cfFimContent prompt suffix }]

/-- The dispatch of ConstructRequestBody (main.go lines 520 to 529) on the
    configured code-instruct model: the messages replacement performed, or
    none when the body passes through with its messages untouched. -/
def constructRequestMessages (codeModel prompt suffix : List Char) : Option (List CodeMsg) :=
  if containsSub stableCodeMarker codeModel then some (stableCodeMessages prompt suffix)
  else if isPre "@".data codeModel then some (cfCodeMessages prompt suffix)
  else none

/-- The escaped lower angle bracket sequence (main.go line 569). -/
def uEscLt : List Char := "\\u003c".data

/-- The escaped greater angle bracket sequence (main.go line 570). -/
def uEscGt : List Char := "\\u003e".data

/-- constructWithChatModel restores literal angle brackets in the
    serialized body (main.go lines 568 to 571). -/
def unescapeAngles (s : List Char) : List Char :=
  replaceAll uEscGt ['>'] (replaceAll uEscLt ['<'] s)

/-! The stream translator of codeCompletions (main.go lines 456 to 513):
    consumes the payloads handed over by the reader goroutine, re-encodes
    chunks, and on the stop signal synthesizes the finish chunk and the
    terminator. -/

/-- The delta fragment of a parsed stream chunk. -/
structure Message where
  role : List Char
  content : List Char
  name : Option (List Char)
deriving DecidableEq

/-- One choice of a parsed stream chunk. -/
structure Choice where
  index : Int
  delta : Message
  finishReason : Option (List Char)
deriving DecidableEq

/-- A parsed upstream stream chunk (ChatCompletionsStreamResponse). -/
structure StreamResp where
  id : List Char
  object : List Char
  created : Int
  model : List Char
  choices : List Choice
deriving DecidableEq

/-- The request-scoped inputs of the stream translator: the configured
    code-instruct model, the correlation id of the request, and the clock
    reading used for the synthesized chunk. -/
structure StreamCfg where
  codeInstructModel : List Char
  requestId : List Char
  now : Int
deriving DecidableEq

/-- GetResponseID (main.go lines 139 to 142). -/
def getResponseID (requestId : List Char) : List Char :=
  "chatcmpl-".data ++ requestId

/-- The backend end-of-text sentinel blanked on at-prefixed backends
    (main.go line 477). -/
def sentinel : List Char := "<｜end▁of▁sentence｜>".data

/-- One client-visible SSE emission of the code path. -/
inductive Out where
  | chunkEvent (r : StreamResp)
  | rawEvent (s : List Char)
  | doneEvent
deriving DecidableEq

/-- One arrival at the select of the stream callback: a payload from the
    data channel, or the stop signal. -/
inductive StreamEvent where
  | data (payload : List Char)
  | stop
deriving DecidableEq

/-- Processing of one payload in the streaming state (main.go lines 461
    to 489), parameterized by the JSON decoder: a trailing carriage return
    is trimmed; an unparseable payload, the terminator among them, emits
    nothing; on an at-prefixed backend the sentinel content of the first
    choice is blanked and the chunk re-encoded, and an empty choice list
    makes the Go code index out of range (none = panic); otherwise the
    payload is re-emitted raw. -/
def processPayload (cfg : StreamCfg) (parse : List Char → Option StreamResp)
    (payload : List Char) : Option (List Out) :=
  match parse (trimSuffix ['\r'] payload) with
  | none => some []
  | some r =>
    if isPre "@".data cfg.codeInstructModel then
      match r.choices with
      | [] => none
      | ch :: rest =>
        some [Out.chunkEvent { r with choices :=
          (if ch.delta.content = sentinel then
            { ch with delta := { ch.delta with content := [] } }
          else ch) :: rest }]
    else
      some [Out.rawEvent ("data:".data ++ trimSuffix ['\r'] payload)]

/-- The synthesized finish chunk of the stop branch (main.go lines 491
    to 502): one choice with the zero-valued delta and finish reason stop. -/
def finishChunk (cfg : StreamCfg) : StreamResp :=
  { id := getResponseID cfg.requestId
    object := "chat.completion.chunk".data
    created := cfg.now
    model := cfg.codeInstructModel
    choices := [{ index := 0, delta := { role := [], content := [], name := none },
                  finishReason := some "stop".data }] }

/-- The stream callback loop (main.go lines 459 to 512): data events are
    processed in order, a processing panic aborts the stream, and the stop
    signal renders the finish chunk then the terminator and ends the
    stream, ignoring anything after. -/
def runStream (cfg : StreamCfg) (parse : List Char → Option StreamResp) :
    List StreamEvent → List Out
  | [] => []
  | StreamEvent.stop :: _ => [Out.chunkEvent (finishChunk cfg), Out.doneEvent]
  | StreamEvent.data s :: rest =>
    match processPayload cfg parse s with
    | none => []
    | some outs => outs ++ runStream cfg parse rest

/-- The emissions of the data events alone, before the stop signal. -/
def streamedBody (cfg : StreamCfg) (parse : List Char → Option StreamResp) :
    List (List Char) → List Out
  | [] => []
  | s :: rest => (processPayload cfg parse s).getD [] ++ streamedBody cfg parse rest

/-- The response abortCodex writes (main.go lines 227 to 232). -/
structure AbortResponse where
  status : Int
  contentType : List Char
  body : List Char
deriving DecidableEq

/-- abortCodex (main.go lines 227 to 232): the given status, the event
    stream content type, and exactly the terminator line as body. -/
def abortCodex (status : Int) : AbortResponse :=
  { status := status
    contentType := "text/event-stream".data
    body := "data: [DONE]\n".data }

/-- The outcome of the code path once the upstream response arrived. -/
inductive CodexOutcome where
  | abort (loggedBody : List Char) (resp : AbortResponse)
  | stream (events : List Out)
deriving DecidableEq

/-- codeCompletions after the upstream call (main.go lines 414 to 513):
    a non-success status logs the upstream body and aborts; success scans
    the body into frames and runs the translator until exhaustion. -/
def handleCodexUpstream (cfg : StreamCfg) (parse : List Char → Option StreamResp)
    (status : Int) (bodyBytes : List Char) : CodexOutcome :=
  if status = 200 then
    CodexOutcome.stream (runStream cfg parse
      ((readerFrames bodyBytes).map StreamEvent.data ++ [StreamEvent.stop]))
  else
    CodexOutcome.abort bodyBytes (abortCodex status)

/-- A decoder that fails on every payload (concrete instance for closed
    statements). -/
def parseNone : List Char → Option StreamResp := fun _ => none

/-- A concrete parsed chunk whose first choice carries the end-of-text
    sentinel (concrete instance for closed statements). -/
def sampleChunk : StreamResp :=
  { id := "x1".data
    object := "chat.completion.chunk".data
    created := 7
    model := "deepseek".data
    choices := [{ index := 0
                  delta := { role := "assistant".data, content := sentinel, name := none }
                  finishReason := none }] }

/-- A decoder that yields sampleChunk on every payload (concrete instance
    for closed statements). -/
def parseSample : List Char → Option StreamResp := fun _ => some sampleChunk

/-- A concrete parsed chunk with an empty choices list, as produced by the
    upstream payload consisting of an empty JSON object (concrete instance
    for closed statements). -/
def emptyChoicesChunk : StreamResp :=
  { id := "e1".data
    object := "chat.completion.chunk".data
    created := 1
    model := "m".data
    choices := [] }

/-- A decoder that yields emptyChoicesChunk on every payload (concrete
    instance for closed statements). -/
def parseEmptyChoices : List Char → Option StreamResp := fun _ => some emptyChoicesChunk

/-! Lemmas about the scanner. -/

theorem extractLines_append (a b : List Char) :
    extractLines (a ++ b) =
      ((extractLines a).1 ++ (extractLines ((extractLines a).2 ++ b)).1,
       (extractLines ((extractLines a).2 ++ b)).2) := by
  induction a with
  | nil => simp [extractLines]
  | cons c a ih =>
    by_cases hc : c = '\n'
    · subst hc
      simp only [List.cons_append, extractLines, if_pos rfl, ih]
      simp [ih]
    · have e1 : extractLines ((c :: a) ++ b) = consLine c (extractLines (a ++ b)) := by
        simp [extractLines, hc]
      have e2 : extractLines (c :: a) = consLine c (extractLines a) := by
        simp [extractLines, hc]
      rw [e1, e2, ih]
      cases h : extractLines a with
      | mk p1 p2 =>
        cases p1 with
        | nil =>
          simp only [consLine, List.nil_append, List.cons_append, extractLines, if_neg hc]
          cases hx : extractLines (p2 ++ b) with
          | mk x1 x2 => cases x1 <;> simp [consLine]
        | cons l ls =>
          cases hx : extractLines (p2 ++ b) with
          | mk x1 x2 => simp [consLine, hx]

theorem scanAll_append (a b : List Char) :
    scanAll (a ++ b) = (extractLines a).1 ++ scanAll ((extractLines a).2 ++ b) := by
  simp only [scanAll, scanChunks, extractLines_append a b]
  simp [List.append_assoc]

theorem scanChunks_flatten :
    ∀ (chunks : List (List Char)) (buf : List Char),
      scanChunks chunks buf = scanAll (buf ++ chunks.flatten) := by
  intro chunks
  induction chunks with
  | nil => intro buf; simp [scanAll]
  | cons ch rest ih =>
    intro buf
    simp only [scanChunks, List.flatten_cons]
    rw [ih, show buf ++ (ch ++ rest.flatten) = (buf ++ ch) ++ rest.flatten from
      (List.append_assoc _ _ _).symm, scanAll_append (buf ++ ch) rest.flatten]

/-- Claim C3: the SSE frame reader emits the same payload sequence for
    every partition of the upstream byte stream into reads: it splits on
    newlines, tolerates a missing final newline, discards lines shorter
    than the data tag, strips the tag, and the translator strips one
    trailing carriage return; a frame delivered across two reads is thus
    emitted exactly once, never partially or twice. -/
theorem sse_reader_partition_invariant (chunks : List (List Char)) :
    readerFramesChunked chunks = readerFrames chunks.flatten ∧
    deliveredPayloadsChunked chunks = deliveredPayloads chunks.flatten := by
  have h : scanChunks chunks [] = scanAll chunks.flatten := by
    rw [scanChunks_flatten]; simp
  exact ⟨by simp [readerFramesChunked, readerFrames, h],
         by simp [deliveredPayloadsChunked, deliveredPayloads, readerFramesChunked,
                  readerFrames, h]⟩

/-! Lemmas about substring containment. -/

theorem isPre_self_append (l t : List Char) : isPre l (l ++ t) = true := by
  induction l with
  | nil => rfl
  | cons a l ih => simp [isPre, ih]

theorem containsSub_of_isPre {p s : List Char} (h : isPre p s = true) :
    containsSub p s = true := by
  cases s with
  | nil => simpa [containsSub] using h
  | cons b s => simp [containsSub, h]

theorem containsSub_append_left (u : List Char) {p t : List Char}
    (h : containsSub p t = true) : containsSub p (u ++ t) = true := by
  induction u with
  | nil => simpa using h
  | cons a u ih => simp [containsSub, ih]

/-- Claim C5: the locale suffix augmentation is idempotent: the first
    application introduces the marker substring that guards the second,
    which is therefore a no-op. -/
theorem locale_augmentation_idempotent (loc content : List Char) :
    augmentContent loc (augmentContent loc content) = augmentContent loc content := by
  by_cases h : containsSub localeMarker content = true
  · simp [augmentContent, h]
  · have hb : containsSub localeMarker content = false := by
      cases hx : containsSub localeMarker content
      · rfl
      · exact absurd hx h
    have hdec : "Respond in the following locale: ".data =
        localeMarker ++ ": ".data := by decide
    have htail : containsSub localeMarker
        (content ++ "Respond in the following locale: ".data ++ loc ++ ".".data) = true := by
      rw [List.append_assoc, List.append_assoc]
      apply containsSub_append_left content
      rw [hdec, List.append_assoc]
      exact containsSub_of_isPre (isPre_self_append _ _)
    have ha : augmentContent loc content =
        content ++ "Respond in the following locale: ".data ++ loc ++ ".".data := by
      simp [augmentContent, hb]
    rw [ha]
    simp only [augmentContent, htail]
    simp

/-! Lemmas about the chat rewrite. -/

theorem updateLast_append (f : List Char → List Char) :
    ∀ (ms : List (List Char)) (a : List Char),
      updateLast f (ms ++ [a]) = some (ms ++ [f a])
  | [], _ => rfl
  | [_], _ => rfl
  | c :: d :: ms, a => by
    have ih := updateLast_append f (d :: ms) a
    simp only [List.cons_append] at ih ⊢
    simp [updateLast, ih]

theorem rewriteLocale_eq (cfg : ChatCfg) (b : ChatBody) :
    rewriteLocale cfg b =
      (if b.functionCallPresent then some b.messages
        else updateLast (augmentContent (localeOf cfg)) b.messages).map
        (fun ms => { b with messages := ms }) := by
  rcases b with ⟨m, fc, msgs, mt, i1, i2, i3⟩
  unfold rewriteLocale
  by_cases hfc : fc <;> simp only [hfc]
  · simp
  · cases updateLast (augmentContent (localeOf cfg)) msgs <;> simp

theorem rewriteChat_eq (cfg : ChatCfg) (b : ChatBody) :
    rewriteChat cfg b =
      (if b.functionCallPresent then some b.messages
        else updateLast (augmentContent (localeOf cfg)) b.messages).map
        (fun ms =>
          { model := some (match lookupModel (b.model.getD []) cfg.chatModelMap with
              | some v => v
              | none => cfg.chatModelDefault)
            functionCallPresent := b.functionCallPresent
            messages := ms
            maxTokens :=
              if b.maxTokens.getD 0 > cfg.chatMaxTokens then some cfg.chatMaxTokens
              else b.maxTokens
            intentPresent := false
            intentThresholdPresent := false
            intentContentPresent := false }) := by
  unfold rewriteChat
  rw [rewriteLocale_eq]
  by_cases hfc : b.functionCallPresent <;>
  by_cases hmt : b.maxTokens.getD 0 > cfg.chatMaxTokens <;>
  cases hu : updateLast (augmentContent (localeOf cfg)) b.messages <;>
  simp [rewriteModel, stripIntents, clampBody, hfc, hmt, hu]

/-- Claim C10: with function_call absent and an empty (or missing) message
    array, the chat handler indexes the message list at position -1; the
    rewrite does not produce a forwarded body (the code panics), so the
    chat path needs the unstated precondition that messages is non-empty. -/
theorem chat_empty_messages_panics (cfg : ChatCfg) (b : ChatBody)
    (hfc : b.functionCallPresent = false) (hm : b.messages = []) :
    rewriteChat cfg b = none := by
  rw [rewriteChat_eq]
  simp [hfc, hm, updateLast]

theorem chat_empty_messages_panics_witness :
    rewriteChat
      { chatModelMap := [], chatModelDefault := [], chatLocale := [], chatMaxTokens := 0 }
      { model := none, functionCallPresent := false, messages := [], maxTokens := none,
        intentPresent := false, intentThresholdPresent := false,
        intentContentPresent := false } = none :=
  chat_empty_messages_panics _ _ rfl rfl

/-- Claim C9 counterexample: a configuration may map the empty model name;
    a request with the model field absent is then forwarded with the mapped
    value of the empty name, not with the configured default. -/
theorem chat_model_default_counterexample :
    (rewriteChat
      { chatModelMap := [([], "special".data)], chatModelDefault := "dflt".data,
        chatLocale := [], chatMaxTokens := 100 }
      { model := none, functionCallPresent := true, messages := [], maxTokens := none,
        intentPresent := false, intentThresholdPresent := false,
        intentContentPresent := false }).map ChatBody.model
      = some (some "special".data) ∧
    ("special".data : List Char) ≠ "dflt".data :=
  ⟨by decide, by decide⟩

/-- Claim C9 (amended): the forwarded model field is always overwritten:
    it equals the map entry of the client-requested name, an absent name
    being looked up as the empty string, and equals the configured default
    exactly when that (possibly empty) name is not a key of the map. -/
theorem chat_model_always_overwritten (cfg : ChatCfg) (b b' : ChatBody) (v : List Char)
    (h : rewriteChat cfg b = some b') :
    (lookupModel (b.model.getD []) cfg.chatModelMap = some v → b'.model = some v) ∧
    (lookupModel (b.model.getD []) cfg.chatModelMap = none →
      b'.model = some cfg.chatModelDefault) := by
  rw [rewriteChat_eq] at h
  obtain ⟨ms, -, rfl⟩ := Option.map_eq_some'.mp h
  constructor <;> intro hl <;> simp [hl]

theorem chat_model_always_overwritten_witness :
    rewriteChat
      { chatModelMap := [("a".data, "A".data)], chatModelDefault := "dflt".data,
        chatLocale := [], chatMaxTokens := 100 }
      { model := some "a".data, functionCallPresent := true, messages := [],
        maxTokens := none, intentPresent := false, intentThresholdPresent := false,
        intentContentPresent := false }
      = some
      { model := some "A".data, functionCallPresent := true, messages := [],
        maxTokens := none, intentPresent := false, intentThresholdPresent := false,
        intentContentPresent := false } ∧
    ((lookupModel ("a".data) [("a".data, "A".data)] = some "A".data →
        (some "A".data : Option (List Char)) = some "A".data) ∧
      (lookupModel ("a".data) [("a".data, "A".data)] = none →
        (some "A".data : Option (List Char)) = some "dflt".data)) := by
  refine ⟨by decide, ?_⟩
  have h := chat_model_always_overwritten
    { chatModelMap := [("a".data, "A".data)], chatModelDefault := "dflt".data,
      chatLocale := [], chatMaxTokens := 100 }
    { model := some "a".data, functionCallPresent := true, messages := [],
      maxTokens := none, intentPresent := false, intentThresholdPresent := false,
      intentContentPresent := false }
    { model := some "A".data, functionCallPresent := true, messages := [],
      maxTokens := none, intentPresent := false, intentThresholdPresent := false,
      intentContentPresent := false }
    "A".data (by decide)
  exact h

/-- Claim C8 counterexample: with a negative configured cap, a request
    without max_tokens is forwarded with the field set to the cap, not left
    unset as claimed. -/
theorem chat_max_tokens_counterexample :
    (rewriteChat
      { chatModelMap := [], chatModelDefault := "d".data, chatLocale := [],
        chatMaxTokens := -1 }
      { model := none, functionCallPresent := true, messages := [], maxTokens := none,
        intentPresent := false, intentThresholdPresent := false,
        intentContentPresent := false }).map ChatBody.maxTokens
      = some (some (-1)) ∧
    (some (some (-1)) : Option (Option Int)) ≠ some none :=
  ⟨by decide, by decide⟩

/-- Claim C8 (amended): values above the cap are clamped to the cap and
    values at or below it pass unchanged; an absent field reads as 0 and
    stays unset when the cap is non-negative, while a negative cap makes
    the absent field be set to the cap. -/
theorem chat_max_tokens_clamp (cfg : ChatCfg) (b b' : ChatBody) (v : Int)
    (h : rewriteChat cfg b = some b') :
    (b.maxTokens = some v → v > cfg.chatMaxTokens →
      b'.maxTokens = some cfg.chatMaxTokens) ∧
    (b.maxTokens = some v → v ≤ cfg.chatMaxTokens → b'.maxTokens = some v) ∧
    (b.maxTokens = none → 0 ≤ cfg.chatMaxTokens → b'.maxTokens = none) ∧
    (b.maxTokens = none → cfg.chatMaxTokens < 0 →
      b'.maxTokens = some cfg.chatMaxTokens) := by
  rw [rewriteChat_eq] at h
  obtain ⟨ms, -, rfl⟩ := Option.map_eq_some'.mp h
  refine ⟨?_, ?_, ?_, ?_⟩ <;> intro h1 h2 <;> simp [h1] <;> omega

theorem chat_max_tokens_clamp_witness :
    rewriteChat
      { chatModelMap := [], chatModelDefault := "d".data, chatLocale := [],
        chatMaxTokens := 10 }
      { model := none, functionCallPresent := true, messages := ["m".data],
        maxTokens := some 25, intentPresent := false, intentThresholdPresent := false,
        intentContentPresent := false }
      = some
      { model := some "d".data, functionCallPresent := true, messages := ["m".data],
        maxTokens := some 10, intentPresent := false, intentThresholdPresent := false,
        intentContentPresent := false } ∧
    (some (25 : Int) = some (25 : Int) → (25 : Int) > 10 →
      (some (10 : Int) : Option Int) = some 10) := by
  refine ⟨by decide, ?_⟩
  have h := chat_max_tokens_clamp
    { chatModelMap := [], chatModelDefault := "d".data, chatLocale := [],
      chatMaxTokens := 10 }
    { model := none, functionCallPresent := true, messages := ["m".data],
      maxTokens := some 25, intentPresent := false, intentThresholdPresent := false,
      intentContentPresent := false }
    { model := some "d".data, functionCallPresent := true, messages := ["m".data],
      maxTokens := some 10, intentPresent := false, intentThresholdPresent := false,
      intentContentPresent := false }
    25 (by decide)
  intro h1 h2
  exact h.1 h1 h2

/-- Claim C4 counterexample: the appended locale instruction carries no
    leading space, so the augmented content differs from the content with
    a space-separated locale instruction appended. -/
theorem chat_locale_space_counterexample :
    (rewriteChat
      { chatModelMap := [], chatModelDefault := "d".data, chatLocale := [],
        chatMaxTokens := 100 }
      { model := none, functionCallPresent := false, messages := ["hi".data],
        maxTokens := none, intentPresent := false, intentThresholdPresent := false,
        intentContentPresent := false }).map ChatBody.messages
      = some ["hiRespond in the following locale: zh_CN.".data] ∧
    (some ["hiRespond in the following locale: zh_CN.".data] : Option (List (List Char)))
      ≠ some ["hi Respond in the following locale: zh_CN.".data] :=
  ⟨by decide, by decide⟩

/-- Claim C4 (amended): with function_call absent and the marker substring
    not in the last message content, that content is replaced by the
    original content with the locale instruction appended directly, with no
    leading space, the locale being cfg.ChatLocale or zh_CN when unset;
    content containing the marker, or a body with function_call present,
    keeps its messages unchanged. -/
theorem chat_locale_augmentation (cfg : ChatCfg) (b : ChatBody)
    (ms : List (List Char)) (lastMsg : List Char)
    (hmsg : b.messages = ms ++ [lastMsg]) :
    (b.functionCallPresent = false → containsSub localeMarker lastMsg = false →
      (rewriteChat cfg b).map ChatBody.messages =
        some (ms ++ [lastMsg ++ "Respond in the following locale: ".data ++
          (if cfg.chatLocale = [] then "zh_CN".data else cfg.chatLocale) ++ ".".data])) ∧
    (b.functionCallPresent = false → containsSub localeMarker lastMsg = true →
      (rewriteChat cfg b).map ChatBody.messages = some b.messages) ∧
    (b.functionCallPresent = true →
      (rewriteChat cfg b).map ChatBody.messages = some b.messages) := by
  rw [rewriteChat_eq]
  refine ⟨?_, ?_, ?_⟩
  · intro h1 h2
    simp [h1, hmsg, updateLast_append, augmentContent, h2, localeOf]
  · intro h1 h2
    simp [h1, hmsg, updateLast_append, augmentContent, h2]
  · intro h1
    simp [h1]

theorem chat_locale_augmentation_witness :
    ("hi".data :: [] : List (List Char)) = [] ++ ["hi".data] ∧
    ((false = false → containsSub localeMarker "hi".data = false →
      (rewriteChat
        { chatModelMap := [], chatModelDefault := "d".data, chatLocale := [],
          chatMaxTokens := 100 }
        { model := none, functionCallPresent := false, messages := ["hi".data],
          maxTokens := none, intentPresent := false, intentThresholdPresent := false,
          intentContentPresent := false }).map ChatBody.messages =
        some ([] ++ ["hi".data ++ "Respond in the following locale: ".data ++
          (if ([] : List Char) = [] then "zh_CN".data else []) ++ ".".data]))) := by
  refine ⟨by decide, ?_⟩
  intro h1 h2
  have h := chat_locale_augmentation
    { chatModelMap := [], chatModelDefault := "d".data, chatLocale := [],
      chatMaxTokens := 100 }
    { model := none, functionCallPresent := false, messages := ["hi".data],
      maxTokens := none, intentPresent := false, intentThresholdPresent := false,
      intentContentPresent := false }
    [] ("hi".data) (by decide)
  exact h.1 h1 h2

/-! Lemmas about replaceAll: the restored angle brackets cannot recreate an
    escaped bracket sequence, because neither bracket occurs in either
    escape sequence. -/

theorem replaceAll_nil (p r : List Char) : replaceAll p r [] = [] := by
  simp [replaceAll]

theorem replaceAll_cons (p r : List Char) (a : Char) (s : List Char) :
    replaceAll p r (a :: s) =
      if p ≠ [] ∧ isPre p (a :: s) = true then
        r ++ replaceAll p r (List.drop p.length (a :: s))
      else a :: replaceAll p r s := by
  rw [replaceAll]

theorem containsSub_cons_false {p : List Char} {b : Char} {s : List Char}
    (h : containsSub p (b :: s) = false) :
    isPre p (b :: s) = false ∧ containsSub p s = false := by
  simpa [containsSub, Bool.or_eq_false_iff] using h

theorem containsSub_drop (q : List Char) :
    ∀ (k : Nat) (s : List Char), containsSub q s = false →
      containsSub q (List.drop k s) = false
  | 0, s, h => by simpa using h
  | _ + 1, [], h => by simpa using h
  | k + 1, b :: s, h => by
    simp only [List.drop_succ_cons]
    exact containsSub_drop q k s (containsSub_cons_false h).2

theorem isPre_replaceAll_false (p : List Char) (c : Char) :
    ∀ (s q : List Char), c ∉ q → isPre q s = false →
      isPre q (replaceAll p [c] s) = false := by
  intro s
  induction s with
  | nil =>
    intro q hc h
    simpa [replaceAll_nil] using h
  | cons a s ih =>
    intro q hc h
    rw [replaceAll_cons]
    split
    · cases q with
      | nil => simp [isPre] at h
      | cons x q' =>
        have hxc : ¬ x = c := fun he => hc (by simp [he])
        simp [isPre, hxc]
    · cases q with
      | nil => simp [isPre] at h
      | cons x q' =>
        by_cases hxa : x = a
        · subst hxa
          have h' : isPre q' s = false := by simpa [isPre] using h
          have hc' : c ∉ q' := fun hm => hc (List.mem_cons_of_mem _ hm)
          simp [isPre, ih q' hc' h']
        · simp [isPre, hxa]

theorem containsSub_replaceAll_self (p : List Char) (c : Char)
    (hc : c ∉ p) (hp : p ≠ []) :
    ∀ s, containsSub p (replaceAll p [c] s) = false := by
  have key : ∀ (n : Nat) (s : List Char), s.length ≤ n →
      containsSub p (replaceAll p [c] s) = false := by
    intro n
    induction n with
    | zero =>
      intro s hs
      have hnil : s = [] := List.length_eq_zero.mp (Nat.le_zero.mp hs)
      subst hnil
      cases p with
      | nil => exact absurd rfl hp
      | cons x p' => simp [replaceAll_nil, containsSub, isPre]
    | succ n ihn =>
      intro s hs
      cases s with
      | nil =>
        cases p with
        | nil => exact absurd rfl hp
        | cons x p' => simp [replaceAll_nil, containsSub, isPre]
      | cons a s' =>
        rw [replaceAll_cons]
        split
        next hcond =>
          obtain ⟨hpne, hpre⟩ := hcond
          have hlen : (List.drop p.length (a :: s')).length ≤ n := by
            simp only [List.length_drop, List.length_cons]
            have hppos : 0 < p.length := List.length_pos.mpr hpne
            simp only [List.length_cons] at hs
            omega
          have hR := ihn _ hlen
          cases p with
          | nil => exact absurd rfl hp
          | cons x p' =>
            have hxc : ¬ x = c := fun he => (by simp [he] at hc)
            simp only [List.length_cons, List.drop_succ_cons] at hR
            simp [containsSub, isPre, hxc, hR]
        next hcond =>
          have hs' : s'.length ≤ n := by
            simp only [List.length_cons] at hs
            omega
          have hR := ihn s' hs'
          have hnotpre : isPre p (a :: s') = false := by
            cases hb : isPre p (a :: s')
            · rfl
            · exact absurd ⟨hp, hb⟩ hcond
          cases p with
          | nil => exact absurd rfl hp
          | cons x p' =>
            by_cases hxa : x = a
            · subst hxa
              have hp' : isPre p' s' = false := by simpa [isPre] using hnotpre
              have hc' : c ∉ p' := fun hm => hc (List.mem_cons_of_mem _ hm)
              have hpr := isPre_replaceAll_false (x :: p') c s' p' hc' hp'
              simp [containsSub, isPre, hpr, hR]
            · simp [containsSub, isPre, hxa, hR]
  intro s
  exact key s.length s le_rfl

theorem containsSub_replaceAll_other (p : List Char) (c : Char) (q : List Char)
    (hcq : c ∉ q) :
    ∀ s, containsSub q s = false → containsSub q (replaceAll p [c] s) = false := by
  have key : ∀ (n : Nat) (s : List Char), s.length ≤ n → containsSub q s = false →
      containsSub q (replaceAll p [c] s) = false := by
    intro n
    induction n with
    | zero =>
      intro s hs h
      have hnil : s = [] := List.length_eq_zero.mp (Nat.le_zero.mp hs)
      subst hnil
      simpa [replaceAll_nil] using h
    | succ n ihn =>
      intro s hs h
      cases s with
      | nil => simpa [replaceAll_nil] using h
      | cons a s' =>
        obtain ⟨hnp, hcs⟩ := containsSub_cons_false h
        rw [replaceAll_cons]
        split
        next hcond =>
          obtain ⟨hpne, hpre⟩ := hcond
          have hdrop : containsSub q (List.drop p.length (a :: s')) = false :=
            containsSub_drop q p.length (a :: s') h
          have hlen : (List.drop p.length (a :: s')).length ≤ n := by
            simp only [List.length_drop, List.length_cons]
            have hppos : 0 < p.length := List.length_pos.mpr hpne
            simp only [List.length_cons] at hs
            omega
          have hR := ihn _ hlen hdrop
          cases q with
          | nil => simp [isPre] at hnp
          | cons y q' =>
            have hyc : ¬ y = c := fun he => (by simp [he] at hcq)
            simp [containsSub, isPre, hyc, hR]
        next hcond =>
          have hs' : s'.length ≤ n := by
            simp only [List.length_cons] at hs
            omega
          have hR := ihn s' hs' hcs
          have hpre2 : isPre q (a :: replaceAll p [c] s') = false := by
            have hall := isPre_replaceAll_false p c (a :: s') q hcq hnp
            rwa [replaceAll_cons, if_neg hcond] at hall
          cases q with
          | nil => simp [isPre] at hnp
          | cons y q' => simp only [containsSub, hpre2, hR, Bool.or_false]
  intro s
  exact key s.length s le_rfl

/-- Claim C6: with the stable-code marker in the configured code-instruct
    model, the constructed body replaces messages by exactly one user
    message whose content carries the literal fill-in-middle wrapping of
    prompt and suffix, and the angle bracket restoration leaves no escaped
    angle bracket sequence anywhere in the serialized body. -/
theorem stable_code_fim_construction (codeModel prompt suffix s : List Char)
    (hm : containsSub stableCodeMarker codeModel = true) :
    constructRequestMessages codeModel prompt suffix =
      some [{ role := "user".data, content := fimContent prompt suffix }] ∧
    containsSub ("<fim_prefix>".data ++ prompt ++ "<fim_suffix>".data ++ suffix ++
      "<fim_middle>".data) (fimContent prompt suffix) = true ∧
    containsSub uEscLt (unescapeAngles s) = false ∧
    containsSub uEscGt (unescapeAngles s) = false := by
  refine ⟨?_, ?_, ?_, ?_⟩
  · simp [constructRequestMessages, hm, stableCodeMessages]
  · have hrefl : isPre (fimContent prompt suffix) (fimContent prompt suffix) = true := by
      simpa using isPre_self_append (fimContent prompt suffix) []
    exact containsSub_of_isPre hrefl
  · unfold unescapeAngles
    apply containsSub_replaceAll_other uEscGt '>' uEscLt (by decide)
    exact containsSub_replaceAll_self uEscLt '<' (by decide) (by decide) s
  · unfold unescapeAngles
    exact containsSub_replaceAll_self uEscGt '>' (by decide) (by decide) _

theorem stable_code_fim_construction_witness :
    containsSub stableCodeMarker "stable-code-3b".data = true ∧
    (constructRequestMessages "stable-code-3b".data "abc".data "def".data =
      some [{ role := "user".data, content := fimContent "abc".data "def".data }] ∧
    containsSub ("<fim_prefix>".data ++ "abc".data ++ "<fim_suffix>".data ++ "def".data ++
      "<fim_middle>".data) (fimContent "abc".data "def".data) = true ∧
    containsSub uEscLt (unescapeAngles "\\u003cdiv\\u003e".data) = false ∧
    containsSub uEscGt (unescapeAngles "\\u003cdiv\\u003e".data) = false) :=
  ⟨by decide,
    stable_code_fim_construction "stable-code-3b".data "abc".data "def".data
      "\\u003cdiv\\u003e".data (by decide)⟩

/-! Lemmas about the stream translator. -/

theorem processPayload_no_done (cfg : StreamCfg) (parse : List Char → Option StreamResp)
    (s : List Char) (outs : List Out) (h : processPayload cfg parse s = some outs) :
    Out.doneEvent ∉ outs := by
  unfold processPayload at h
  split at h
  · cases h
    simp
  · split at h
    · split at h
      · simp at h
      · cases h
        simp
    · cases h
      simp

theorem runStream_exhaust (cfg : StreamCfg) (parse : List Char → Option StreamResp) :
    ∀ ps : List (List Char), (∀ s ∈ ps, processPayload cfg parse s ≠ none) →
      runStream cfg parse (ps.map StreamEvent.data ++ [StreamEvent.stop]) =
        streamedBody cfg parse ps ++ [Out.chunkEvent (finishChunk cfg), Out.doneEvent] := by
  intro ps
  induction ps with
  | nil =>
    intro _
    simp [runStream, streamedBody]
  | cons s rest ih =>
    intro hok
    cases hps : processPayload cfg parse s with
    | none => exact absurd hps (hok s (by simp))
    | some outs =>
      have hrw : runStream cfg parse ((s :: rest).map StreamEvent.data ++ [StreamEvent.stop]) =
          outs ++ runStream cfg parse (rest.map StreamEvent.data ++ [StreamEvent.stop]) := by
        simp [runStream, hps]
      rw [hrw, ih (fun t ht => hok t (by simp [ht]))]
      simp [streamedBody, hps, List.append_assoc]

theorem streamedBody_no_done (cfg : StreamCfg) (parse : List Char → Option StreamResp) :
    ∀ ps : List (List Char), Out.doneEvent ∉ streamedBody cfg parse ps := by
  intro ps
  induction ps with
  | nil => simp [streamedBody]
  | cons s rest ih =>
    intro hmem
    rw [show streamedBody cfg parse (s :: rest) =
      (processPayload cfg parse s).getD [] ++ streamedBody cfg parse rest from rfl,
      List.mem_append] at hmem
    rcases hmem with h1 | h2
    · cases hps : processPayload cfg parse s with
      | none => rw [hps] at h1; simp at h1
      | some outs =>
        rw [hps] at h1
        exact processPayload_no_done cfg parse s outs hps h1
    · exact ih h2

/-- Claim C1 counterexample: on an at-prefixed backend, a stream carrying
    one payload that parses to a chunk with an empty choices list makes the
    translator index Choices at position 0 out of range; the stream aborts
    and nothing at all is written, in particular no synthetic finish chunk
    and no terminator event, refuting the unconditional one-terminator
    invariant. -/
theorem code_stream_termination_counterexample :
    processPayload
      { codeInstructModel := "@cf/code".data, requestId := "r1".data, now := 9 }
      parseEmptyChoices "\x7b\x7d".data = none ∧
    runStream
      { codeInstructModel := "@cf/code".data, requestId := "r1".data, now := 9 }
      parseEmptyChoices
      (["\x7b\x7d".data].map StreamEvent.data ++ [StreamEvent.stop]) = [] ∧
    Out.doneEvent ∉ runStream
      { codeInstructModel := "@cf/code".data, requestId := "r1".data, now := 9 }
      parseEmptyChoices
      (["\x7b\x7d".data].map StreamEvent.data ++ [StreamEvent.stop]) :=
  ⟨by decide, by decide, by decide⟩

/-- Claim C1 (amended): when every payload of the stream processes without
    panicking, on exhaustion of the upstream stream the code-completion
    translator writes exactly one synthetic finish chunk, with the derived
    response id, the chunk object tag, the current timestamp, the
    configured code-instruct model, and a single choice with empty delta
    and finish reason stop, followed by exactly one terminator event, with
    nothing written after it; an upstream terminator payload causes no
    emission of its own.  Without the proviso the property fails: on an
    at-prefixed backend a parsed chunk with an empty choices list panics
    and aborts the stream before any terminator. -/
theorem code_stream_single_termination (cfg : StreamCfg)
    (parse : List Char → Option StreamResp) (ps : List (List Char))
    (hdone : parse "[DONE]".data = none)
    (hok : ∀ s ∈ ps, processPayload cfg parse s ≠ none) :
    processPayload cfg parse "[DONE]".data = some [] ∧
    runStream cfg parse (ps.map StreamEvent.data ++ [StreamEvent.stop]) =
      streamedBody cfg parse ps ++ [Out.chunkEvent (finishChunk cfg), Out.doneEvent] ∧
    Out.doneEvent ∉ streamedBody cfg parse ps ∧
    finishChunk cfg =
      { id := "chatcmpl-".data ++ cfg.requestId
        object := "chat.completion.chunk".data
        created := cfg.now
        model := cfg.codeInstructModel
        choices := [{ index := 0
                      delta := { role := [], content := [], name := none }
                      finishReason := some "stop".data }] } := by
  refine ⟨?_, runStream_exhaust cfg parse ps hok, streamedBody_no_done cfg parse ps, rfl⟩
  have ht : trimSuffix ['\r'] "[DONE]".data = "[DONE]".data := by decide
  simp [processPayload, ht, hdone]

theorem code_stream_single_termination_witness :
    processPayload
      { codeInstructModel := "gpt-3.5-turbo-instruct".data, requestId := "req1".data,
        now := 1700000000 } parseNone "[DONE]".data = some [] ∧
    runStream
      { codeInstructModel := "gpt-3.5-turbo-instruct".data, requestId := "req1".data,
        now := 1700000000 } parseNone
      (["[DONE]".data].map StreamEvent.data ++ [StreamEvent.stop]) =
      streamedBody
        { codeInstructModel := "gpt-3.5-turbo-instruct".data, requestId := "req1".data,
          now := 1700000000 } parseNone ["[DONE]".data] ++
        [Out.chunkEvent (finishChunk
          { codeInstructModel := "gpt-3.5-turbo-instruct".data, requestId := "req1".data,
            now := 1700000000 }), Out.doneEvent] ∧
    Out.doneEvent ∉ streamedBody
      { codeInstructModel := "gpt-3.5-turbo-instruct".data, requestId := "req1".data,
        now := 1700000000 } parseNone ["[DONE]".data] ∧
    finishChunk
      { codeInstructModel := "gpt-3.5-turbo-instruct".data, requestId := "req1".data,
        now := 1700000000 } =
      { id := "chatcmpl-".data ++ "req1".data
        object := "chat.completion.chunk".data
        created := 1700000000
        model := "gpt-3.5-turbo-instruct".data
        choices := [{ index := 0
                      delta := { role := [], content := [], name := none }
                      finishReason := some "stop".data }] } :=
  code_stream_single_termination
    { codeInstructModel := "gpt-3.5-turbo-instruct".data, requestId := "req1".data,
      now := 1700000000 } parseNone ["[DONE]".data] rfl (by decide)

/-- Claim C2: a non-success upstream status on the code path makes the
    proxy log the upstream error body and answer the client with that same
    status, the event stream content type, and a body of exactly the
    terminator line with a trailing newline and nothing else. -/
theorem code_upstream_error_abort (cfg : StreamCfg)
    (parse : List Char → Option StreamResp) (status : Int) (bodyBytes : List Char)
    (h : status ≠ 200) :
    handleCodexUpstream cfg parse status bodyBytes =
      CodexOutcome.abort bodyBytes
        { status := status, contentType := "text/event-stream".data,
          body := "data: [DONE]\n".data } := by
  simp [handleCodexUpstream, h, abortCodex]

theorem code_upstream_error_abort_witness :
    (500 : Int) ≠ 200 ∧
    handleCodexUpstream
      { codeInstructModel := "m".data, requestId := "r".data, now := 0 }
      parseNone 500 "\x7b\"error\":\"boom\"\x7d".data =
      CodexOutcome.abort "\x7b\"error\":\"boom\"\x7d".data
        { status := 500, contentType := "text/event-stream".data,
          body := "data: [DONE]\n".data } :=
  ⟨by decide,
    code_upstream_error_abort
      { codeInstructModel := "m".data, requestId := "r".data, now := 0 }
      parseNone 500 "\x7b\"error\":\"boom\"\x7d".data (by decide)⟩

/-- Claim C7: on an at-prefixed code backend, a successfully parsed chunk
    whose first choice delta content equals the end-of-text sentinel is
    re-encoded with that content blanked to the empty string, while the
    id, object, created, model, the choice index and finish reason, the
    remaining delta fields, and all other choices are unchanged. -/
theorem at_backend_sentinel_blanked (cfg : StreamCfg)
    (parse : List Char → Option StreamResp) (s : List Char) (r : StreamResp)
    (ch : Choice) (rest : List Choice)
    (hat : isPre "@".data cfg.codeInstructModel = true)
    (hparse : parse (trimSuffix ['\r'] s) = some r)
    (hch : r.choices = ch :: rest)
    (hsent : ch.delta.content = sentinel) :
    processPayload cfg parse s =
      some [Out.chunkEvent { r with choices :=
        { ch with delta := { ch.delta with content := [] } } :: rest }] := by
  simp [processPayload, hparse, hat, hch, hsent]

theorem at_backend_sentinel_blanked_witness :
    isPre "@".data "@cf/code".data = true ∧
    sampleChunk.choices.head?.map (fun c => c.delta.content) = some sentinel ∧
    processPayload
      { codeInstructModel := "@cf/code".data, requestId := "r".data, now := 3 }
      parseSample "x".data =
      some [Out.chunkEvent
        { id := "x1".data
          object := "chat.completion.chunk".data
          created := 7
          model := "deepseek".data
          choices := [{ index := 0
                        delta := { role := "assistant".data, content := [], name := none }
                        finishReason := none }] }] := by
  refine ⟨by decide, by decide, ?_⟩
  exact at_backend_sentinel_blanked
    { codeInstructModel := "@cf/code".data, requestId := "r".data, now := 3 }
    parseSample "x".data sampleChunk
    { index := 0
      delta := { role := "assistant".data, content := sentinel, name := none }
      finishReason := none } [] (by decide) rfl rfl rfl

end Override
